import Mathlib

/-!
Shallow embedding of the ChunkedTranscriber pipeline
(src/unnamed/part_002, class ChunkedTranscriber) and proofs of the
specification claims about it.

Conventions of the embedding:
* JS numbers that hold durations/times are modelled as rationals.
* JS strings are Lean strings; the helpers below model the exact
  semantics of the JS operations used by the source
  (String.prototype.split with a single-char or whitespace-run
  separator, Array.prototype.slice with negative arguments,
  Array.prototype.join).
* JS Map and Set (insertion-ordered) are modelled as association
  lists / lists without duplicates, in insertion order.
* External effects (the transcription engine, the file system) are
  modelled as explicit function parameters.
-/

set_option maxRecDepth 10000

namespace Transcriber

variable {E : Type}

/-- Model of Array.prototype.join: empty list gives the empty string,
otherwise the pieces are interleaved with the separator. -/
def joinSep (s : String) : List String → String
  | [] => ""
  | [x] => x
  | x :: y :: ys => x ++ s ++ joinSep s (y :: ys)

/-- Model of String.prototype.split with separator a newline character,
on the character list of the string: splitting the empty string gives
one empty piece, and every newline opens a new piece. -/
def splitOnNl : List Char → List (List Char)
  | [] => [[]]
  | c :: cs =>
    if c = '\n' then [] :: splitOnNl cs
    else
      match splitOnNl cs with
      | [] => [[c]]
      | h :: t => (c :: h) :: t

/-- Lines of a string, as in the JS expression s.split('\n'). -/
def splitLines (s : String) : List String :=
  (splitOnNl s.data).map (fun cs => String.mk cs)

/-- Model of String.prototype.split on the regex of one-or-more
whitespace characters: pieces are the maximal runs between whitespace
runs; a leading (resp. trailing) whitespace run contributes a leading
(resp. trailing) empty piece, exactly as in JS. -/
def splitWsAux : List Char → List (List Char)
  | [] => [[]]
  | c :: cs =>
    if c.isWhitespace then
      match cs with
      | [] => [[], []]
      | c2 :: _ => if c2.isWhitespace then splitWsAux cs else [] :: splitWsAux cs
    else
      match splitWsAux cs with
      | [] => [[c]]
      | h :: t => (c :: h) :: t

/-- Whitespace split of a string, as in the JS expression
s.split(whitespace-run regex). -/
def splitWs (s : String) : List String :=
  (splitWsAux s.data).map (fun cs => String.mk cs)

/-- Model of Array.prototype.slice with a single negative argument -k:
the last k elements (everything when k exceeds the length, everything
when k is zero since slice(-0) is slice(0)). -/
def sliceFromNeg (l : List α) (k : ℕ) : List α :=
  if k = 0 then l else l.drop (l.length - k)

/-- Model of the JS expression l.slice(0, -k or undefined): all
elements but the last k; for k = 0 the JS expression degrades to
slice(0, undefined), the whole array. -/
def sliceDropLast (l : List α) (k : ℕ) : List α :=
  if k = 0 then l else l.take (l.length - k)

/-- Insertion into a JS Set modelled as an insertion-ordered
duplicate-free list: add at the end when absent. -/
def setAdd (l : List String) (s : String) : List String :=
  if s ∈ l then l else l ++ [s]

/-- Lookup in a JS Map modelled as an insertion-ordered association
list (Map.prototype.get). -/
def mapGet (m : List (String × String)) (k : String) : Option String :=
  match m with
  | [] => none
  | (k0, v) :: rest => if k0 = k then some v else mapGet rest k

/-- Interface ChunkInfo of the source. -/
structure ChunkInfo where
  index : ℕ
  filename : String
  path : String
  startTime : ℚ
  endTime : ℚ
  duration : ℚ
  hasOverlap : Bool
deriving DecidableEq, Repr

/-- Interface ChunkTranscript of the source; the JS Set of speakers is
an insertion-ordered duplicate-free list. -/
structure ChunkTranscript where
  chunkIndex : ℕ
  transcript : String
  speakers : List String
  mainContent : String
  overlapContent : String
deriving DecidableEq, Repr

/-- Interface TranscriptionContext of the source; the two JS Maps are
insertion-ordered association lists. -/
structure TranscriptionContext where
  previousTranscript : String
  speakers : List (String × String)
  speakerDescriptions : List (String × String)
deriving DecidableEq, Repr

/-- Interface CacheMetadata of the source. The transcripts object
(number-keyed) is modelled as a function from indices to optional
transcripts. -/
structure CacheMetadata where
  sourceFile : String
  fileHash : String
  duration : ℚ
  chunkDuration : ℚ
  overlapDuration : ℚ
  chunks : List ChunkInfo
  createdAt : String
  transcripts : ℕ → Option ChunkTranscript

/-- Model of String.prototype.padStart with a pad character. -/
def padStart (s : String) (n : ℕ) (c : Char) : String :=
  String.mk (List.replicate (n - s.length) c) ++ s

/-- The chunk file name built in createChunks. -/
def chunkFilename (chunkIndex : ℕ) : String :=
  "chunk-" ++ padStart (toString (chunkIndex + 1)) 3 '0' ++ ".mp3"

/-- Loop body of ChunkedTranscriber.createChunks (lines 130 to 159 of
the source): while currentTime < duration, emit a chunk whose start is
currentTime pulled back by the overlap (except for chunk 0) and whose
end is currentTime + chunkDuration clamped to the total duration. The
loop is driven by explicit fuel; the wrapper below supplies enough
fuel for the whole duration, and the theorems prove the fuel is never
the reason the loop stops. -/
def createChunksGo (cacheDir : String) (chunkDuration overlapDuration duration : ℚ) :
    ℕ → ℚ → ℕ → List ChunkInfo
  | 0, _, _ => []
  | fuel + 1, currentTime, chunkIndex =>
    if currentTime < duration then
      let startTime := max 0 (currentTime - (if 0 < chunkIndex then overlapDuration else 0))
      let endTime := min duration (currentTime + chunkDuration)
      let filename := chunkFilename chunkIndex
      { index := chunkIndex
        filename := filename
        path := cacheDir ++ "/" ++ filename
        startTime := startTime
        endTime := endTime
        duration := endTime - startTime
        hasOverlap := decide (0 < chunkIndex) } ::
        createChunksGo cacheDir chunkDuration overlapDuration duration fuel
          (currentTime + chunkDuration) (chunkIndex + 1)
    else []

/-- ChunkedTranscriber.createChunks: the segmentation loop starting
from currentTime = 0 and chunkIndex = 0. -/
def createChunks (cacheDir : String) (chunkDuration overlapDuration duration : ℚ) :
    List ChunkInfo :=
  createChunksGo cacheDir chunkDuration overlapDuration duration
    ((⌈duration / chunkDuration⌉).toNat + 1) 0 0

/-- The overlap line count computed in transcribeChunk (line 245):
ceil(totalLines * 0.1) for overlap chunks, 0 otherwise. -/
def overlapLineCount (hasOv : Bool) (totalLines : ℕ) : ℕ :=
  if hasOv then (⌈(totalLines : ℚ) * (0.1 : ℚ)⌉).toNat else 0

/-- Helper for the speaker regex of transcribeChunk (line 237): after
an opening double star, find the lazily shortest capture followed by
the closing colon-double-star; the dot of the regex does not cross a
newline. Returns the capture and the remainder of the input after the
close, or none when no close is reachable. -/
def findSpeakerClose : List Char → Option (List Char × List Char)
  | [] => none
  | c :: cs =>
    if c = ':' ∧ cs.take 2 = ['*', '*'] then some ([], cs.drop 2)
    else if c = '\n' then none
    else
      match findSpeakerClose cs with
      | none => none
      | some (cap, rest) => some (c :: cap, rest)

/-- Scanner for matchAll of the source regex (double star, lazy
capture, colon double star, global flag): at each position, try to
match; on success continue after the match, otherwise advance one
character. Returns the captured group of every match, in order. The
scan consumes at least one character per step, so fuel equal to the
input length is enough; the wrapper supplies one more. -/
def scanSpeakersGo : ℕ → List Char → List String
  | 0, _ => []
  | _, [] => []
  | fuel + 1, '*' :: '*' :: cs =>
    match findSpeakerClose cs with
    | some (cap, rest) => String.mk cap :: scanSpeakersGo fuel rest
    | none => scanSpeakersGo fuel ('*' :: cs)
  | fuel + 1, _ :: cs => scanSpeakersGo fuel cs

/-- All captures of the speaker regex over a character list. -/
def scanSpeakers (s : List Char) : List String :=
  scanSpeakersGo (s.length + 1) s

/-- ChunkedTranscriber.buildContextualPrompt (lines 177 to 203): fixed
instructions, then the previous-transcript section when non-empty,
then the known-speakers roster when non-empty, then the closing
directive. A speaker description is appended only when present and
non-empty, matching the JS truthiness test. -/
def buildContextualPrompt (context : TranscriptionContext) : String :=
  let base := "Please transcribe this audio segment with the following requirements:\n\n1. Identify and label speakers consistently\n2. Format each speaker\x27s dialogue on a new line with \"**Speaker Name:**\" format\n3. Clean up filler words but maintain natural speech patterns\n4. Preserve the meaning and flow of conversation\n\n"
  let p1 :=
    if context.previousTranscript ≠ "" then
      base ++ "\nCONTEXT FROM PREVIOUS SEGMENT:\n" ++ context.previousTranscript ++ "\n\n"
    else base
  let p2 :=
    if 0 < context.speakers.length then
      p1 ++ "IDENTIFIED SPEAKERS SO FAR:\n" ++
        (context.speakers.foldl
          (fun acc entry =>
            let desc :=
              match mapGet context.speakerDescriptions entry.1 with
              | some d => if d = "" then "" else ": " ++ d
              | none => ""
            acc ++ "- " ++ entry.2 ++ desc ++ "\n")
          "") ++
        "\nPlease use these same speaker labels for consistency.\n\n"
    else p1
  p2 ++ "Transcribe the audio now:"

/-- The pure tail of ChunkedTranscriber.transcribeChunk (lines 233 to
256): given the raw text returned by the engine, extract the speaker
set via the bold-label regex, split into lines, compute the overlap
line count, and cut the main and overlap content. -/
def parseTranscript (chunk : ChunkInfo) (transcript : String) : ChunkTranscript :=
  let speakers := (scanSpeakers transcript.data).foldl setAdd []
  let lines := splitLines transcript
  let totalLines := lines.length
  let overlapLines := overlapLineCount chunk.hasOverlap totalLines
  let mainContent := joinSep "\n" (sliceDropLast lines overlapLines)
  let overlapContent :=
    if 0 < overlapLines then joinSep "\n" (sliceFromNeg lines overlapLines) else ""
  { chunkIndex := chunk.index
    transcript := transcript
    speakers := speakers
    mainContent := mainContent
    overlapContent := overlapContent }

/-- The external transcription engine for one segment: receives the
chunk (standing for its audio payload) and the prompt, and returns
the optional text field of the response, or fails. -/
abbrev Engine (E : Type) := ChunkInfo → String → Except E (Option String)

/-- ChunkedTranscriber.transcribeChunk (lines 208 to 257): call the
engine with the contextual prompt, default a missing text field to
the empty string, and parse. -/
def transcribeChunkM (engine : Engine E) (chunk : ChunkInfo)
    (context : TranscriptionContext) : Except E ChunkTranscript :=
  match engine chunk (buildContextualPrompt context) with
  | .error e => .error e
  | .ok t => .ok (parseTranscript chunk (t.getD ""))

/-- ChunkedTranscriber.updateContext (lines 262 to 283): keep the last
500 whitespace-split words of the full transcript, add an identity
alias for every newly seen speaker, and pass the descriptions
through. -/
def updateContext (context : TranscriptionContext)
    (transcript : ChunkTranscript) : TranscriptionContext :=
  let words := splitWs transcript.transcript
  let contextWords := joinSep " " (sliceFromNeg words 500)
  let updatedSpeakers :=
    transcript.speakers.foldl
      (fun m speaker =>
        if (mapGet m speaker).isSome then m else m ++ [(speaker, speaker)])
      context.speakers
  { previousTranscript := contextWords
    speakers := updatedSpeakers
    speakerDescriptions := context.speakerDescriptions }

/-- ChunkedTranscriber.mergeOverlaps (lines 288 to 304): chunk 0
contributes its full transcript, every later chunk its mainContent,
joined with the fixed separator. -/
def mergeOverlaps (transcripts : List ChunkTranscript) : String :=
  joinSep "\n\n---\n\n"
    (transcripts.enum.map (fun p => if p.1 = 0 then p.2.transcript else p.2.mainContent))

/-- The polish prompt of ChunkedTranscriber.polishTranscript (lines
312 to 325). -/
def polishPrompt (rawTranscript : String) : String :=
  "Please review and polish this transcript:\n\n1. Standardize all speaker labels (ensure consistent naming throughout)\n2. Add section breaks (---) between major topic changes\n3. Fix any obvious transcription errors\n4. Ensure consistent formatting\n5. Clean up any duplicate content from chunk boundaries\n\nImportant: Preserve all actual content, only fix formatting and consistency issues.\n\nTRANSCRIPT:\n" ++ rawTranscript ++ "\n\nReturn the polished transcript:"

/-- ChunkedTranscriber.polishTranscript (lines 309 to 337): one
engine call over the merged document; a missing or empty text field
falls back to the raw transcript (the JS or-else on line 336); an
engine failure propagates. -/
def polishTranscript (polishEngine : String → Except E (Option String))
    (rawTranscript : String) : Except E String :=
  match polishEngine (polishPrompt rawTranscript) with
  | .error e => .error e
  | .ok t =>
    .ok (match t with
      | some s => if s = "" then rawTranscript else s
      | none => rawTranscript)

/-- ChunkedTranscriber.formatAsMarkdown (lines 342 to 356). The file
base name, source base name and date are environment inputs and enter
as parameters. -/
def formatAsMarkdown (model fileName sourceBase timestamp transcript : String) : String :=
  "# Transcript: " ++ fileName ++ "\n\n" ++
  "**Date:** " ++ timestamp ++ "\n" ++
  "**Source:** " ++ sourceBase ++ "\n" ++
  "**Model:** " ++ model ++ "\n\n" ++
  "---\n\n" ++
  transcript ++
  "\n\n---\n\n" ++
  "*Transcribed using Google Gemini with intelligent chunking*\n"

/-- Tail of ChunkedTranscriber.transcribe (lines 447 to 455): polish
the merged document, format it as markdown and write the output file.
A value of the form Except.ok content means the output file was
written with that content; Except.error means the error propagated
and no file was written, since the write follows the polish call. -/
def finishTranscribe (polishEngine : String → Except E (Option String))
    (model fileName sourceBase timestamp merged : String) : Except E String :=
  match polishTranscript polishEngine merged with
  | .error e => .error e
  | .ok final => .ok (formatAsMarkdown model fileName sourceBase timestamp final)

/-- The file system seen through the fs module: a map from paths to
file contents. -/
abbrev FileSystem := String → Option String

/-- The metadata path used by the cache functions (lines 100, 108,
117 of the source). -/
def metadataPath (cacheDir fileHash : String) : String :=
  cacheDir ++ "/" ++ fileHash ++ "/metadata.json"

/-- The error taxonomy of the cache load: the untyped exceptions of
the source (readFileSync throwing on an absent file, JSON.parse
throwing on unparsable content) mapped to the named conditions of the
specification. -/
inductive CacheError where
  | cacheMissing
  | cacheCorrupt
deriving DecidableEq, Repr

/-- ChunkedTranscriber.isCacheValid (lines 99 to 102): the metadata
file exists. -/
def isCacheValid (fs : FileSystem) (cacheDir fileHash : String) : Bool :=
  (fs (metadataPath cacheDir fileHash)).isSome

/-- ChunkedTranscriber.loadCacheMetadata (lines 107 to 111): read the
metadata file, then parse it. An absent file makes readFileSync
throw (cacheMissing); present but unparsable content makes JSON.parse
throw (cacheCorrupt). The JSON parser is an external parameter. -/
def loadCacheMetadata (parseMeta : String → Option CacheMetadata)
    (fs : FileSystem) (cacheDir fileHash : String) : Except CacheError CacheMetadata :=
  match fs (metadataPath cacheDir fileHash) with
  | none => .error .cacheMissing
  | some data =>
    match parseMeta data with
    | none => .error .cacheCorrupt
    | some metadata => .ok metadata

/-- ChunkedTranscriber.saveCacheMetadata (lines 116 to 119): overwrite
the metadata file with the serialized record. The JSON serializer is
an external parameter. -/
def saveCacheMetadata (printMeta : CacheMetadata → String) (fs : FileSystem)
    (cacheDir fileHash : String) (metadata : CacheMetadata) : FileSystem :=
  fun p => if p = metadataPath cacheDir fileHash then some (printMeta metadata) else fs p

/-- The cache-consulting head of ChunkedTranscriber.transcribe (lines
379 to 401): when the cache is valid, load it (surfacing any load
error and leaving the file system untouched); otherwise build a fresh
record (chunk planning and probing enter as the freshMeta parameter)
and persist it. Returns the file system after this phase together
with the outcome. -/
def loadPhase (parseMeta : String → Option CacheMetadata)
    (printMeta : CacheMetadata → String) (fs : FileSystem)
    (cacheDir fileHash : String) (freshMeta : CacheMetadata) :
    FileSystem × Except CacheError CacheMetadata :=
  if isCacheValid fs cacheDir fileHash then
    (fs, loadCacheMetadata parseMeta fs cacheDir fileHash)
  else
    (saveCacheMetadata printMeta fs cacheDir fileHash freshMeta, .ok freshMeta)

/-- Result of the segment loop of ChunkedTranscriber.transcribe:
the in-memory record at exit, the successive records handed to
saveCacheMetadata (in call order), the number of per-segment engine
calls issued, and either the collected transcripts with the final
context or the propagated error. -/
structure RunResult (E : Type) where
  metadata : CacheMetadata
  saves : List CacheMetadata
  engineCalls : ℕ
  outcome : Except E (List ChunkTranscript × TranscriptionContext)

/-- The record update metadata.transcripts[chunk.index] = transcript
of line 429. -/
def setTranscript (metadata : CacheMetadata) (i : ℕ) (t : ChunkTranscript) : CacheMetadata :=
  { metadata with transcripts := fun j => if j = i then some t else metadata.transcripts j }

/-- The segment loop of ChunkedTranscriber.transcribe (lines 413 to
441): for each chunk in order, use the cached transcript when the
record has one (no engine call, no save); otherwise call the engine,
and on success store the transcript in the record, save the record,
and update the context; on failure stop at once with the error. -/
def runSegments (engine : Engine E) :
    List ChunkInfo → CacheMetadata → TranscriptionContext → List ChunkTranscript →
    List CacheMetadata → ℕ → RunResult E
  | [], metadata, context, acc, saves, calls =>
    ⟨metadata, saves, calls, .ok (acc, context)⟩
  | chunk :: rest, metadata, context, acc, saves, calls =>
    match metadata.transcripts chunk.index with
    | some cached =>
      runSegments engine rest metadata (updateContext context cached)
        (acc ++ [cached]) saves calls
    | none =>
      match transcribeChunkM engine chunk context with
      | .ok t =>
        runSegments engine rest (setTranscript metadata chunk.index t)
          (updateContext context t) (acc ++ [t])
          (saves ++ [setTranscript metadata chunk.index t]) (calls + 1)
      | .error e => ⟨metadata, saves, calls + 1, .error e⟩

/-- The fresh context of lines 407 to 411. -/
def initialContext : TranscriptionContext := ⟨"", [], []⟩

/-- The segment loop as entered by transcribe: fresh context, empty
accumulators. -/
def transcribeSegments (engine : Engine E) (chunks : List ChunkInfo)
    (metadata : CacheMetadata) : RunResult E :=
  runSegments engine chunks metadata initialContext [] [] 0

/-- The merged document produced after the loop (line 445), when the
loop succeeded. -/
def mergedOutput (r : RunResult E) : Except E String :=
  r.outcome.map (fun p => mergeOverlaps p.1)

/-- Resuming the loop on further chunks from the result of a previous
portion of the loop; used to decompose runs. -/
def runFromResult (engine : Engine E) (rest : List ChunkInfo) (r : RunResult E) : RunResult E :=
  match r.outcome with
  | .ok p => runSegments engine rest r.metadata p.2 p.1 r.saves r.engineCalls
  | .error _ => r

/-! Helper lemmas. -/

theorem ceil_tenth (L : ℕ) : ⌈(L : ℚ) * (0.1 : ℚ)⌉ = ((L + 9) / 10 : ℕ) := by
  have h10 : (0 : ℚ) < 10 := by norm_num
  rw [show (L : ℚ) * (0.1 : ℚ) = (L : ℚ) / 10 by
    rw [show (0.1 : ℚ) = 1 / 10 by norm_num]; ring, Int.ceil_eq_iff]
  refine ⟨?_, ?_⟩
  · rw [lt_div_iff₀ h10]
    have key : ((((L + 9) / 10 : ℕ) : ℤ) - 1) * 10 < (L : ℤ) := by omega
    exact_mod_cast key
  · rw [div_le_iff₀ h10]
    have key : (L : ℤ) ≤ (((L + 9) / 10 : ℕ) : ℤ) * 10 := by omega
    exact_mod_cast key

/-- The overlap line count in pure natural arithmetic. -/
theorem overlapLineCount_eq (hasOv : Bool) (L : ℕ) :
    overlapLineCount hasOv L = if hasOv then (L + 9) / 10 else 0 := by
  unfold overlapLineCount
  cases hasOv <;> simp only [ceil_tenth, Int.toNat_natCast, if_true, if_false,
    Bool.false_eq_true, Bool.true_eq_false, ite_true, ite_false]

theorem splitOnNl_ne_nil (cs : List Char) : splitOnNl cs ≠ [] := by
  induction cs with
  | nil => simp [splitOnNl]
  | cons c cs ih =>
    rw [splitOnNl]
    split_ifs
    · simp
    · match h : splitOnNl cs with
      | [] => simp
      | h0 :: t => simp

theorem splitLines_ne_nil (s : String) : splitLines s ≠ [] := by
  unfold splitLines
  simpa using splitOnNl_ne_nil s.data

theorem splitLines_length_pos (s : String) : 0 < (splitLines s).length :=
  List.length_pos.mpr (splitLines_ne_nil s)

theorem joinSep_length (s : String) :
    ∀ l : List String, l ≠ [] →
      (joinSep s l).length = (l.map String.length).sum + (l.length - 1) * s.length := by
  intro l
  induction l with
  | nil => intro h; simp at h
  | cons x xs ih =>
    intro _
    match xs with
    | [] => simp [joinSep]
    | y :: ys =>
      have hy : y :: ys ≠ [] := by simp
      rw [joinSep]
      simp only [String.length_append, ih hy, List.map_cons, List.sum_cons,
        List.length_cons, Nat.add_sub_cancel]
      ring

theorem enumFrom_map_mainContent (ts : List ChunkTranscript) :
    ∀ k, ((List.enumFrom (k + 1) ts).map
        (fun p => if p.1 = 0 then p.2.transcript else p.2.mainContent)) =
      ts.map (fun u => u.mainContent) := by
  induction ts with
  | nil => intro k; simp
  | cons t ts ih =>
    intro k
    simp only [List.enumFrom, List.map_cons]
    rw [ih (k + 1)]
    simp

/-- The merge, in closed form: the head contributes its transcript,
the tail contributes main content. -/
theorem mergeOverlaps_cons (t : ChunkTranscript) (ts : List ChunkTranscript) :
    mergeOverlaps (t :: ts) =
      joinSep "\n\n---\n\n" (t.transcript :: ts.map (fun u => u.mainContent)) := by
  unfold mergeOverlaps
  rw [show (t :: ts).enum = (0, t) :: List.enumFrom (0 + 1) ts from rfl]
  simp only [List.map_cons]
  rw [enumFrom_map_mainContent ts 0]
  norm_num

/-! Planner lemmas. In the segmentation loop the cursor always equals
chunkIndex * chunkDuration, so every lemma is stated at a cursor of
that shape. -/

/-- Closed form of the chunk emitted by the loop at a given index. -/
def chunkAt (cacheDir : String) (chunkDuration overlapDuration duration : ℚ) (i : ℕ) :
    ChunkInfo :=
  { index := i
    filename := chunkFilename i
    path := cacheDir ++ "/" ++ chunkFilename i
    startTime := if i = 0 then 0 else max 0 (i * chunkDuration - overlapDuration)
    endTime := min duration (i * chunkDuration + chunkDuration)
    duration := min duration (i * chunkDuration + chunkDuration) -
      (if i = 0 then 0 else max 0 (i * chunkDuration - overlapDuration))
    hasOverlap := decide (0 < i) }

theorem createChunksGo_get? (dir : String) (w ov total : ℚ) :
    ∀ (fuel k i : ℕ) (c : ChunkInfo),
      (createChunksGo dir w ov total fuel ((k : ℚ) * w) k).get? i = some c →
      c = chunkAt dir w ov total (k + i) := by
  intro fuel
  induction fuel with
  | zero => intro k i c h; simp [createChunksGo] at h
  | succ fuel ih =>
    intro k i c h
    rw [createChunksGo] at h
    by_cases hk : (k : ℚ) * w < total
    · rw [if_pos hk] at h
      match i with
      | 0 =>
        rw [List.get?_cons_zero] at h
        have hc := (Option.some.injEq _ _).mp h
        subst hc
        unfold chunkAt
        by_cases hk0 : k = 0
        · subst hk0; simp
        · have hpos : 0 < k := Nat.pos_of_ne_zero hk0
          simp [hk0, hpos]
      | i + 1 =>
        rw [List.get?_cons_succ] at h
        have hcast : (k : ℚ) * w + w = ((k + 1 : ℕ) : ℚ) * w := by push_cast; ring
        rw [hcast] at h
        have := ih (k + 1) i c h
        rw [show k + (i + 1) = k + 1 + i by omega]
        exact this
    · rw [if_neg hk] at h
      simp at h

theorem createChunksGo_cursor_lt (dir : String) (w ov total : ℚ) :
    ∀ (fuel k i : ℕ) (c : ChunkInfo),
      (createChunksGo dir w ov total fuel ((k : ℚ) * w) k).get? i = some c →
      ((k + i : ℕ) : ℚ) * w < total := by
  intro fuel
  induction fuel with
  | zero => intro k i c h; simp [createChunksGo] at h
  | succ fuel ih =>
    intro k i c h
    rw [createChunksGo] at h
    by_cases hk : (k : ℚ) * w < total
    · rw [if_pos hk] at h
      match i with
      | 0 => simpa using hk
      | i + 1 =>
        rw [List.get?_cons_succ] at h
        have hcast : (k : ℚ) * w + w = ((k + 1 : ℕ) : ℚ) * w := by push_cast; ring
        rw [hcast] at h
        have := ih (k + 1) i c h
        rw [show k + (i + 1) = k + 1 + i by omega]
        exact this
    · rw [if_neg hk] at h
      simp at h

theorem createChunksGo_eq_nil (dir : String) (w ov total : ℚ) :
    ∀ (fuel : ℕ) (cur : ℚ) (idx : ℕ),
      createChunksGo dir w ov total fuel cur idx = [] → fuel = 0 ∨ total ≤ cur := by
  intro fuel cur idx h
  match fuel with
  | 0 => exact Or.inl rfl
  | fuel + 1 =>
    rw [createChunksGo] at h
    by_cases hc : cur < total
    · rw [if_pos hc] at h; simp at h
    · exact Or.inr (not_lt.mp hc)

theorem createChunksGo_getLast_endTime (dir : String) (w ov total : ℚ) :
    ∀ (fuel k : ℕ), total ≤ ((k + fuel : ℕ) : ℚ) * w →
      ∀ c : ChunkInfo,
        (createChunksGo dir w ov total fuel ((k : ℚ) * w) k).getLast? = some c →
        c.endTime = total := by
  intro fuel
  induction fuel with
  | zero => intro k hf c hc; simp [createChunksGo] at hc
  | succ fuel ih =>
    intro k hf c hc
    rw [createChunksGo] at hc
    by_cases hk : (k : ℚ) * w < total
    · rw [if_pos hk] at hc
      have hcast : (k : ℚ) * w + w = ((k + 1 : ℕ) : ℚ) * w := by push_cast; ring
      cases htail : createChunksGo dir w ov total fuel ((k : ℚ) * w + w) (k + 1) with
      | nil =>
        rw [htail, List.getLast?_singleton] at hc
        have hle : total ≤ (k : ℚ) * w + w := by
          rcases createChunksGo_eq_nil dir w ov total fuel ((k : ℚ) * w + w) (k + 1)
              htail with h0 | hle
          · subst h0
            rw [hcast]
            rw [show k + (0 + 1) = k + 1 by omega] at hf
            exact hf
          · exact hle
        have hcc := Option.some.inj hc
        subst hcc
        exact min_eq_left hle
      | cons c2 t2 =>
        rw [htail, List.getLast?_cons_cons] at hc
        apply ih (k + 1) ?_ c ?_
        · rw [show k + 1 + fuel = k + (fuel + 1) by omega]
          exact hf
        · rw [hcast] at htail
          rw [htail]
          exact hc
    · rw [if_neg hk] at hc
      simp at hc

/-- The fuel chosen by createChunks is enough for the whole
duration. -/
theorem createChunks_fuel_enough (w total : ℚ) (hw : 0 < w) :
    total ≤ (((⌈total / w⌉).toNat + 1 : ℕ) : ℚ) * w := by
  by_cases h : total ≤ 0
  · have hpos : (0 : ℚ) < (((⌈total / w⌉).toNat + 1 : ℕ) : ℚ) * w := by
      apply mul_pos _ hw
      exact_mod_cast Nat.succ_pos _
    linarith
  · push_neg at h
    have h1 : total / w ≤ ((⌈total / w⌉ : ℤ) : ℚ) := Int.le_ceil _
    have h2 : (0 : ℤ) ≤ ⌈total / w⌉ := Int.ceil_nonneg (le_of_lt (div_pos h hw))
    have h3 : ((⌈total / w⌉ : ℤ) : ℚ) ≤ (((⌈total / w⌉).toNat + 1 : ℕ) : ℚ) := by
      have h4 : (((⌈total / w⌉).toNat : ℕ) : ℚ) = ((⌈total / w⌉ : ℤ) : ℚ) := by
        exact_mod_cast congrArg (fun z : ℤ => (z : ℚ)) (Int.toNat_of_nonneg h2)
      push_cast
      linarith [h4]
    calc total = total / w * w := (div_mul_cancel₀ total (ne_of_gt hw)).symm
      _ ≤ (((⌈total / w⌉).toNat + 1 : ℕ) : ℚ) * w :=
          mul_le_mul_of_nonneg_right (le_trans h1 h3) (le_of_lt hw)

theorem createChunks_get? (dir : String) (w ov total : ℚ) (i : ℕ) (c : ChunkInfo)
    (h : (createChunks dir w ov total).get? i = some c) :
    c = chunkAt dir w ov total i := by
  unfold createChunks at h
  rw [show (0 : ℚ) = ((0 : ℕ) : ℚ) * w by simp] at h
  simpa using createChunksGo_get? dir w ov total _ 0 i c h

theorem createChunks_cursor_lt (dir : String) (w ov total : ℚ) (i : ℕ) (c : ChunkInfo)
    (h : (createChunks dir w ov total).get? i = some c) : (i : ℚ) * w < total := by
  unfold createChunks at h
  rw [show (0 : ℚ) = ((0 : ℕ) : ℚ) * w by simp] at h
  simpa using createChunksGo_cursor_lt dir w ov total _ 0 i c h

theorem createChunks_getLast_endTime (dir : String) (w ov total : ℚ) (hw : 0 < w)
    (c : ChunkInfo) (h : (createChunks dir w ov total).getLast? = some c) :
    c.endTime = total := by
  unfold createChunks at h
  rw [show (0 : ℚ) = ((0 : ℕ) : ℚ) * w by simp] at h
  apply createChunksGo_getLast_endTime dir w ov total _ 0 ?_ c h
  simpa using createChunks_fuel_enough w total hw

theorem createChunks_eq_nil_of_nonpos (dir : String) (w ov total : ℚ) (h : total ≤ 0) :
    createChunks dir w ov total = [] := by
  simp only [createChunks, createChunksGo]
  rw [if_neg (not_lt.mpr h)]

theorem createChunks_ne_nil_of_pos (dir : String) (w ov total : ℚ) (h : 0 < total) :
    createChunks dir w ov total ≠ [] := by
  simp only [createChunks, createChunksGo]
  rw [if_pos h]
  simp

/-- C1: the planner emits segments indexed 0..N-1 in order; segment 0
starts at 0 with no overlap flag; every later segment starts at
max(0, index * window - overlap) with the overlap flag; every end time
is min(total, index * window + window); the last end time is the total
duration; only the last segment may be shorter than the window; a
non-positive total duration gives the empty plan. -/
theorem claim_C1_segmentPlanner (dir : String) (w ov total : ℚ)
    (hw : 0 < w) (hov : 0 ≤ ov) :
    (total ≤ 0 → createChunks dir w ov total = []) ∧
    (0 < total → createChunks dir w ov total ≠ []) ∧
    (∀ (i : ℕ) (c : ChunkInfo), (createChunks dir w ov total).get? i = some c →
      c.index = i ∧ c.hasOverlap = decide (0 < i) ∧
      c.startTime = (if i = 0 then 0 else max 0 ((i : ℚ) * w - ov)) ∧
      c.endTime = min total ((i : ℚ) * w + w)) ∧
    (∀ c : ChunkInfo, (createChunks dir w ov total).getLast? = some c →
      c.endTime = total) ∧
    (∀ (i : ℕ) (c c2 : ChunkInfo), (createChunks dir w ov total).get? i = some c →
      (createChunks dir w ov total).get? (i + 1) = some c2 → w ≤ c.duration) := by
  refine ⟨createChunks_eq_nil_of_nonpos dir w ov total,
    createChunks_ne_nil_of_pos dir w ov total, ?_, ?_, ?_⟩
  · intro i c h
    have hc := createChunks_get? dir w ov total i c h
    subst hc
    exact ⟨rfl, rfl, rfl, rfl⟩
  · intro c h
    exact createChunks_getLast_endTime dir w ov total hw c h
  · intro i c c2 h h2
    have hc := createChunks_get? dir w ov total i c h
    have hlt := createChunks_cursor_lt dir w ov total (i + 1) c2 h2
    have hlt2 : (i : ℚ) * w + w < total := by push_cast at hlt; linarith
    subst hc
    show w ≤ min total ((i : ℚ) * w + w) -
      (if i = 0 then 0 else max 0 ((i : ℚ) * w - ov))
    rw [min_eq_right (le_of_lt hlt2)]
    by_cases h0 : i = 0
    · subst h0
      simp
    · rw [if_neg h0]
      have hiw : (0 : ℚ) ≤ (i : ℚ) * w := by positivity
      have hmax : max 0 ((i : ℚ) * w - ov) ≤ (i : ℚ) * w :=
        max_le hiw (by linarith)
      linarith

/-- The third segment of the planning example of the specification:
total 1500, window 600, overlap 30. -/
def chunkW2 : ChunkInfo :=
  { index := 2, filename := "chunk-003.mp3", path := "d/chunk-003.mp3",
    startTime := 1170, endTime := 1500, duration := 330, hasOverlap := true }

/-- Witness for C1 at the planning example of the specification:
window 600, overlap 30, total 1500; the plan is non-empty and its
last segment ends at 1500. -/
theorem claim_C1_segmentPlanner_witness :
    createChunks "d" 600 30 (1500 : ℚ) ≠ [] ∧ chunkW2.endTime = 1500 := by
  refine ⟨(claim_C1_segmentPlanner "d" 600 30 1500 (by norm_num) (by norm_num)).2.1
      (by norm_num),
    (claim_C1_segmentPlanner "d" 600 30 1500 (by norm_num)
      (by norm_num)).2.2.2.1 chunkW2 ?_⟩
  have hceil : ⌈(1500 : ℚ) / 600⌉ = 3 := by
    rw [Int.ceil_eq_iff]
    constructor <;> norm_num
  simp only [createChunks]
  rw [hceil]
  norm_num [createChunksGo, List.getLast?, chunkW2]
  decide

/-- C2: the merge contributes the first transcript in full, every
later transcript only through its mainContent, joined pairwise with
the fixed separator, and the empty list merges to the empty string. -/
theorem claim_C2_mergeOverlaps :
    mergeOverlaps [] = "" ∧
    ∀ (t : ChunkTranscript) (ts : List ChunkTranscript),
      mergeOverlaps (t :: ts) =
        joinSep "\n\n---\n\n" (t.transcript :: ts.map (fun u => u.mainContent)) :=
  ⟨rfl, mergeOverlaps_cons⟩

/-- Greedy count of non-overlapping occurrences of the merge
separator in a character list, scanning from the left; driven by
fuel, and every step consumes at least one character, so fuel equal
to the input length is enough. -/
def countSepOccGo : ℕ → List Char → ℕ
  | 0, _ => 0
  | _, [] => 0
  | fuel + 1, c :: cs =>
    if ("\n\n---\n\n".data).isPrefixOf (c :: cs) then countSepOccGo fuel (cs.drop 6) + 1
    else countSepOccGo fuel cs

/-- Greedy separator-occurrence count of a character list. -/
def countSepOcc (s : List Char) : ℕ := countSepOccGo s.length s

/-- A segment transcript whose full text is exactly the separator
token. -/
def sepTextTranscript : ChunkTranscript :=
  { chunkIndex := 0, transcript := "\n\n---\n\n", speakers := [],
    mainContent := "", overlapContent := "" }

/-- Counterexample to C7 as stated: merging the single-segment list
whose transcript is exactly the separator token returns that
transcript unchanged, and the merged output then contains one
occurrence of the separator token, not zero (N = 1 would demand
N - 1 = 0 occurrences). -/
theorem claim_C7_counterexample :
    mergeOverlaps [sepTextTranscript] = "\n\n---\n\n" ∧
    countSepOcc (mergeOverlaps [sepTextTranscript]).data = 1 := by
  constructor
  · rfl
  · decide

/-- C7 as amended: merging a single-segment list returns that
segment transcript unchanged, and merging N segments interleaves the
N contributed pieces with exactly N-1 separator copies, so the merged
length is the total piece length plus (N-1) times the separator
length; the occurrence count of the original claim can exceed N-1
when a piece itself contains or composes the separator. -/
theorem claim_C7_mergeSeparators :
    (∀ t : ChunkTranscript, mergeOverlaps [t] = t.transcript) ∧
    ∀ (t : ChunkTranscript) (ts : List ChunkTranscript),
      (mergeOverlaps (t :: ts)).length =
        ((t.transcript :: ts.map (fun u => u.mainContent)).map String.length).sum +
          ts.length * ("\n\n---\n\n".length) := by
  constructor
  · intro t
    rw [mergeOverlaps_cons]
    simp [joinSep]
  · intro t ts
    rw [mergeOverlaps_cons, joinSep_length _ _ (by simp)]
    simp

/-- C3: the parse step splits the transcript into lines, computes the
overlap line count (ceil of a tenth of the line count for overlap
segments, zero otherwise, which never exceeds the line count), sets
mainContent to all lines but the last count joined by newlines, and
sets overlapContent to exactly the last count lines joined by
newlines (empty when the count is zero); for an overlap segment with
a 20-line transcript the count is 2, mainContent is lines 1-18 and
overlapContent is lines 19-20. -/
theorem claim_C3_parsePartition (chunk : ChunkInfo) (s : String) :
    (parseTranscript chunk s).mainContent =
      joinSep "\n" ((splitLines s).take ((splitLines s).length -
        overlapLineCount chunk.hasOverlap (splitLines s).length)) ∧
    (parseTranscript chunk s).overlapContent =
      (if overlapLineCount chunk.hasOverlap (splitLines s).length = 0 then ""
        else joinSep "\n" ((splitLines s).drop ((splitLines s).length -
          overlapLineCount chunk.hasOverlap (splitLines s).length))) ∧
    overlapLineCount chunk.hasOverlap (splitLines s).length ≤ (splitLines s).length ∧
    ((splitLines s).drop ((splitLines s).length -
        overlapLineCount chunk.hasOverlap (splitLines s).length)).length =
      overlapLineCount chunk.hasOverlap (splitLines s).length ∧
    (chunk.hasOverlap = true → (splitLines s).length = 20 →
      overlapLineCount chunk.hasOverlap (splitLines s).length = 2 ∧
      (parseTranscript chunk s).mainContent =
        joinSep "\n" ((splitLines s).take 18) ∧
      (parseTranscript chunk s).overlapContent =
        joinSep "\n" ((splitLines s).drop 18)) := by
  have hL : 0 < (splitLines s).length := splitLines_length_pos s
  have hk : overlapLineCount chunk.hasOverlap (splitLines s).length ≤
      (splitLines s).length := by
    rw [overlapLineCount_eq]
    cases chunk.hasOverlap
    · simp
    · simp only [if_true]
      omega
  have hmain : (parseTranscript chunk s).mainContent =
      joinSep "\n" ((splitLines s).take ((splitLines s).length -
        overlapLineCount chunk.hasOverlap (splitLines s).length)) := by
    show joinSep "\n" (sliceDropLast (splitLines s)
      (overlapLineCount chunk.hasOverlap (splitLines s).length)) = _
    unfold sliceDropLast
    by_cases h0 : overlapLineCount chunk.hasOverlap (splitLines s).length = 0
    · rw [if_pos h0, h0, Nat.sub_zero, List.take_length]
    · rw [if_neg h0]
  have hover : (parseTranscript chunk s).overlapContent =
      (if overlapLineCount chunk.hasOverlap (splitLines s).length = 0 then ""
        else joinSep "\n" ((splitLines s).drop ((splitLines s).length -
          overlapLineCount chunk.hasOverlap (splitLines s).length))) := by
    show (if 0 < overlapLineCount chunk.hasOverlap (splitLines s).length then
      joinSep "\n" (sliceFromNeg (splitLines s)
        (overlapLineCount chunk.hasOverlap (splitLines s).length)) else "") = _
    by_cases h0 : overlapLineCount chunk.hasOverlap (splitLines s).length = 0
    · rw [if_pos h0, if_neg (by omega)]
    · rw [if_pos (by omega), if_neg h0]
      unfold sliceFromNeg
      rw [if_neg h0]
  have hdrop : ((splitLines s).drop ((splitLines s).length -
      overlapLineCount chunk.hasOverlap (splitLines s).length)).length =
      overlapLineCount chunk.hasOverlap (splitLines s).length := by
    rw [List.length_drop]
    omega
  refine ⟨hmain, hover, hk, hdrop, ?_⟩
  intro hovt h20
  have hcount : overlapLineCount chunk.hasOverlap (splitLines s).length = 2 := by
    rw [overlapLineCount_eq, hovt, h20]
    norm_num
  refine ⟨hcount, ?_, ?_⟩
  · rw [hmain, hcount, h20]
  · rw [hover, hcount, h20]
    norm_num

/-- A twenty-line transcript. -/
def transcript20 : String :=
  "1\n2\n3\n4\n5\n6\n7\n8\n9\n10\n11\n12\n13\n14\n15\n16\n17\n18\n19\n20"

/-- An overlap-flagged chunk used to instantiate the parsing claims. -/
def chunkOv : ChunkInfo :=
  { index := 1, filename := "chunk-002.mp3", path := "p", startTime := 570,
    endTime := 1200, duration := 630, hasOverlap := true }

/-- Witness for C3: the specification example, an overlap segment with
a 20-line transcript. -/
theorem claim_C3_parsePartition_witness :
    (splitLines transcript20).length = 20 ∧
    overlapLineCount chunkOv.hasOverlap (splitLines transcript20).length = 2 ∧
    (parseTranscript chunkOv transcript20).mainContent =
      joinSep "\n" ((splitLines transcript20).take 18) ∧
    (parseTranscript chunkOv transcript20).overlapContent =
      joinSep "\n" ((splitLines transcript20).drop 18) :=
  ⟨by decide,
    ((claim_C3_parsePartition chunkOv transcript20).2.2.2.2 rfl (by decide)).1,
    ((claim_C3_parsePartition chunkOv transcript20).2.2.2.2 rfl (by decide)).2.1,
    ((claim_C3_parsePartition chunkOv transcript20).2.2.2.2 rfl (by decide)).2.2⟩

/-- C10: for an overlap segment the computed overlap line count is at
least one whatever the transcript is (splitting always yields at
least one line), so mainContent omits at least the last line; for a
one-line transcript mainContent is empty, and such a non-first
segment contributes nothing but the separator to the merged
document. -/
theorem claim_C10_overlapNeverEmpty (chunk : ChunkInfo) (s : String)
    (hov : chunk.hasOverlap = true) :
    1 ≤ overlapLineCount chunk.hasOverlap (splitLines s).length ∧
    (splitLines s).length - overlapLineCount chunk.hasOverlap (splitLines s).length <
      (splitLines s).length ∧
    ((splitLines s).length = 1 → (parseTranscript chunk s).mainContent = "") ∧
    (∀ t0 : ChunkTranscript, (splitLines s).length = 1 →
      mergeOverlaps [t0, parseTranscript chunk s] =
        t0.transcript ++ "\n\n---\n\n") := by
  have hL : 0 < (splitLines s).length := splitLines_length_pos s
  have hk1 : 1 ≤ overlapLineCount chunk.hasOverlap (splitLines s).length := by
    rw [overlapLineCount_eq, hov]
    simp only [if_true]
    omega
  have hkle : overlapLineCount chunk.hasOverlap (splitLines s).length ≤
      (splitLines s).length := by
    rw [overlapLineCount_eq, hov]
    simp only [if_true]
    omega
  have hmain1 : (splitLines s).length = 1 →
      (parseTranscript chunk s).mainContent = "" := by
    intro h1
    have hcount : overlapLineCount chunk.hasOverlap (splitLines s).length = 1 := by
      omega
    show joinSep "\n" (sliceDropLast (splitLines s)
      (overlapLineCount chunk.hasOverlap (splitLines s).length)) = ""
    unfold sliceDropLast
    rw [if_neg (by omega), hcount, h1]
    simp [joinSep]
  refine ⟨hk1, by omega, hmain1, ?_⟩
  intro t0 h1
  rw [mergeOverlaps_cons]
  simp only [List.map_cons, List.map_nil, hmain1 h1]
  rw [joinSep]
  rw [joinSep]
  simp

/-- The first segment transcript used by the C10 witness. -/
def firstTranscriptW : ChunkTranscript :=
  { chunkIndex := 0, transcript := "hello world", speakers := [],
    mainContent := "hello world", overlapContent := "" }

/-- Witness for C10: a one-line transcript on an overlap segment
contributes only the separator. -/
theorem claim_C10_overlapNeverEmpty_witness :
    chunkOv.hasOverlap = true ∧
    (splitLines "short line").length = 1 ∧
    1 ≤ overlapLineCount chunkOv.hasOverlap (splitLines "short line").length ∧
    mergeOverlaps [firstTranscriptW, parseTranscript chunkOv "short line"] =
      firstTranscriptW.transcript ++ "\n\n---\n\n" :=
  ⟨rfl, by decide,
    (claim_C10_overlapNeverEmpty chunkOv "short line" rfl).1,
    (claim_C10_overlapNeverEmpty chunkOv "short line" rfl).2.2.2
      firstTranscriptW (by decide)⟩

/-- Whitespace-delimited tokens of a string in the plain reading of
the specification: the non-empty pieces of the whitespace split. Kept
separate from splitWs, which follows the JS split and also yields an
empty boundary piece for leading or trailing whitespace. -/
def wsTokens (s : String) : List String :=
  (splitWs s).filter (fun piece => piece ≠ "")

/-- A transcript whose full text starts with whitespace. -/
def leadingWsTranscript : ChunkTranscript :=
  { chunkIndex := 0, transcript := " a", speakers := [],
    mainContent := " a", overlapContent := "" }

/-- Counterexample to C6 as stated: for the full text " a" the
whitespace-delimited tokens are exactly ["a"], so the claimed
trailing text is "a"; but the code keeps the empty piece produced by
the leading whitespace and outputs " a". -/
theorem claim_C6_counterexample :
    wsTokens " a" = ["a"] ∧
    joinSep " " (sliceFromNeg (wsTokens " a") 500) = "a" ∧
    (updateContext initialContext leadingWsTranscript).previousTranscript = " a" ∧
    (updateContext initialContext leadingWsTranscript).previousTranscript ≠
      joinSep " " (sliceFromNeg (wsTokens " a") 500) := by
  refine ⟨by decide, by decide, by decide, by decide⟩

theorem mapGet_append (m1 m2 : List (String × String)) (k : String) :
    mapGet (m1 ++ m2) k =
      (match mapGet m1 k with
        | some v => some v
        | none => mapGet m2 k) := by
  induction m1 with
  | nil => simp [mapGet]
  | cons p m1 ih =>
    obtain ⟨k0, v⟩ := p
    by_cases h : k0 = k
    · simp [mapGet, h]
    · simp [mapGet, h, ih]

theorem foldl_addSpeakers_mapGet (names : List String) :
    ∀ (m : List (String × String)) (name : String),
      mapGet (names.foldl (fun m2 speaker =>
        if (mapGet m2 speaker).isSome then m2 else m2 ++ [(speaker, speaker)]) m) name =
      (match mapGet m name with
        | some v => some v
        | none => if name ∈ names then some name else none) := by
  induction names with
  | nil =>
    intro m name
    cases h : mapGet m name <;> simp [h]
  | cons s rest ih =>
    intro m name
    simp only [List.foldl_cons]
    by_cases hs : (mapGet m s).isSome
    · rw [if_pos hs, ih m name]
      cases h : mapGet m name with
      | some v => simp
      | none =>
        by_cases hns : name = s
        · subst hns
          rw [h] at hs
          simp at hs
        · simp [List.mem_cons, hns]
    · rw [if_neg hs, ih (m ++ [(s, s)]) name, mapGet_append]
      cases h : mapGet m name with
      | some v => simp
      | none =>
        simp only [mapGet]
        by_cases hns : s = name
        · subst hns
          simp
        · rw [if_neg hns]
          have hns2 : ¬name = s := fun he => hns he.symm
          simp [List.mem_cons, hns2]

/-- C6 as amended: the new trailing text is the last 500 pieces of
the JS whitespace split of the full transcript joined with single
spaces (the split has an empty first or last piece when the text
starts or ends with whitespace, so the trailing text can carry a
boundary space; with no boundary whitespace the pieces are exactly
the whitespace-delimited tokens); the speaker map is the prior map
plus an identity entry for exactly the names of the speaker set not
already present; the descriptions pass through unchanged (the input
context is a value and is never mutated). -/
theorem claim_C6_updateContext (context : TranscriptionContext) (t : ChunkTranscript) :
    (updateContext context t).previousTranscript =
      joinSep " " (sliceFromNeg (splitWs t.transcript) 500) ∧
    (∀ name : String, mapGet (updateContext context t).speakers name =
      (match mapGet context.speakers name with
        | some v => some v
        | none => if name ∈ t.speakers then some name else none)) ∧
    (updateContext context t).speakerDescriptions = context.speakerDescriptions := by
  refine ⟨rfl, ?_, rfl⟩
  intro name
  exact foldl_addSpeakers_mapGet t.speakers context.speakers name

/-- C8: if the polish call fails, the error propagates and no output
file is written (the formatted write is reached only on ok); if the
call succeeds but returns a missing or empty text, the unpolished
merged document is used as the final transcript. -/
theorem claim_C8_polishFallback (polishEngine : String → Except E (Option String))
    (model fileName sourceBase timestamp merged : String) :
    (∀ e : E, polishEngine (polishPrompt merged) = .error e →
      finishTranscribe polishEngine model fileName sourceBase timestamp merged =
        .error e) ∧
    ((polishEngine (polishPrompt merged) = .ok none ∨
        polishEngine (polishPrompt merged) = .ok (some "")) →
      finishTranscribe polishEngine model fileName sourceBase timestamp merged =
        .ok (formatAsMarkdown model fileName sourceBase timestamp merged)) := by
  constructor
  · intro e he
    unfold finishTranscribe polishTranscript
    rw [he]
  · intro h
    unfold finishTranscribe polishTranscript
    rcases h with h | h
    · rw [h]
    · rw [h]
      simp

/-- A polish engine that always fails. -/
def failPolishEngine : String → Except Unit (Option String) := fun _ => .error ()

/-- A polish engine that always returns the empty text. -/
def emptyPolishEngine : String → Except Unit (Option String) := fun _ => .ok (some "")

/-- Witness for C8: a failing polish call propagates and writes
nothing; an empty polish result falls back to the merged document. -/
theorem claim_C8_polishFallback_witness :
    failPolishEngine (polishPrompt "doc") = .error () ∧
    finishTranscribe failPolishEngine "m" "f" "s" "d" "doc" = .error () ∧
    emptyPolishEngine (polishPrompt "doc") = .ok (some "") ∧
    finishTranscribe emptyPolishEngine "m" "f" "s" "d" "doc" =
      .ok (formatAsMarkdown "m" "f" "s" "d" "doc") :=
  ⟨rfl,
    (claim_C8_polishFallback failPolishEngine "m" "f" "s" "d" "doc").1 () rfl,
    rfl,
    (claim_C8_polishFallback emptyPolishEngine "m" "f" "s" "d" "doc").2 (Or.inr rfl)⟩

/-- C9: loading the cache record fails with cacheMissing when the
metadata file is absent and with cacheCorrupt when it is present but
unparsable; in the corrupt case the orchestrator head surfaces the
error to the caller and leaves the file system unchanged, with no
silent discard or regeneration of the record. -/
theorem claim_C9_cacheLoadErrors (parseMeta : String → Option CacheMetadata)
    (printMeta : CacheMetadata → String) (fs : FileSystem)
    (cacheDir fileHash : String) (freshMeta : CacheMetadata) :
    (fs (metadataPath cacheDir fileHash) = none →
      loadCacheMetadata parseMeta fs cacheDir fileHash = .error .cacheMissing) ∧
    (∀ data : String, fs (metadataPath cacheDir fileHash) = some data →
      parseMeta data = none →
      loadCacheMetadata parseMeta fs cacheDir fileHash = .error .cacheCorrupt) ∧
    (∀ data : String, fs (metadataPath cacheDir fileHash) = some data →
      parseMeta data = none →
      loadPhase parseMeta printMeta fs cacheDir fileHash freshMeta =
        (fs, .error .cacheCorrupt)) := by
  refine ⟨?_, ?_, ?_⟩
  · intro h
    unfold loadCacheMetadata
    rw [h]
  · intro data h hp
    simp only [loadCacheMetadata, h, hp]
  · intro data h hp
    have hv : isCacheValid fs cacheDir fileHash = true := by
      unfold isCacheValid
      rw [h]
      rfl
    unfold loadPhase
    rw [if_pos hv]
    simp only [loadCacheMetadata, h, hp]

/-- A file system holding one unparsable metadata file. -/
def corruptFs : FileSystem :=
  fun p => if p = metadataPath ".cache/audio" "h" then some "garbage" else none

/-- A JSON parser that rejects every input, standing for JSON.parse
throwing on the corrupt file. -/
def rejectParseMeta : String → Option CacheMetadata := fun _ => none

/-- A serializer stub for the witness. -/
def printMetaW : CacheMetadata → String := fun _ => "serialized"

/-- A fresh record for the witness. -/
def freshMetaW : CacheMetadata :=
  { sourceFile := "a.mp3", fileHash := "h", duration := 0, chunkDuration := 600,
    overlapDuration := 30, chunks := [], createdAt := "t", transcripts := fun _ => none }

/-- Witness for C9: with the metadata file present but unparsable,
loading reports the corrupt cache and the orchestrator head returns
the untouched file system together with the surfaced error. -/
theorem claim_C9_cacheLoadErrors_witness :
    corruptFs (metadataPath ".cache/audio" "h") = some "garbage" ∧
    rejectParseMeta "garbage" = none ∧
    loadCacheMetadata rejectParseMeta corruptFs ".cache/audio" "h" =
      .error .cacheCorrupt ∧
    loadPhase rejectParseMeta printMetaW corruptFs ".cache/audio" "h" freshMetaW =
      (corruptFs, .error .cacheCorrupt) :=
  ⟨by decide, rfl,
    (claim_C9_cacheLoadErrors rejectParseMeta printMetaW corruptFs ".cache/audio" "h"
      freshMetaW).2.1 "garbage" (by decide) rfl,
    (claim_C9_cacheLoadErrors rejectParseMeta printMetaW corruptFs ".cache/audio" "h"
      freshMetaW).2.2 "garbage" (by decide) rfl⟩

/-! Segment-loop lemmas. -/

theorem setTranscript_transcripts (m : CacheMetadata) (j : ℕ) (t : ChunkTranscript)
    (i : ℕ) :
    (setTranscript m j t).transcripts i = if i = j then some t else m.transcripts i :=
  rfl

theorem runSegments_cached (engine : Engine E) :
    ∀ (chunks : List ChunkInfo) (m : CacheMetadata) (ctx : TranscriptionContext)
      (acc : List ChunkTranscript) (saves : List CacheMetadata) (calls : ℕ),
      (∀ c ∈ chunks, (m.transcripts c.index).isSome = true) →
      (runSegments engine chunks m ctx acc saves calls).metadata = m ∧
      (runSegments engine chunks m ctx acc saves calls).saves = saves ∧
      (runSegments engine chunks m ctx acc saves calls).engineCalls = calls ∧
      ∃ p, (runSegments engine chunks m ctx acc saves calls).outcome = .ok p := by
  intro chunks
  induction chunks with
  | nil =>
    intro m ctx acc saves calls _
    exact ⟨rfl, rfl, rfl, ⟨(acc, ctx), rfl⟩⟩
  | cons chunk rest ih =>
    intro m ctx acc saves calls hc
    have hhead : (m.transcripts chunk.index).isSome = true :=
      hc chunk (List.mem_cons_self _ _)
    obtain ⟨cached, hcached⟩ := Option.isSome_iff_exists.mp hhead
    simp only [runSegments, hcached]
    exact ih m (updateContext ctx cached) (acc ++ [cached]) saves calls
      (fun c hcm => hc c (List.mem_cons_of_mem _ hcm))

theorem runSegments_append (engine : Engine E) :
    ∀ (xs ys : List ChunkInfo) (m : CacheMetadata) (ctx : TranscriptionContext)
      (acc : List ChunkTranscript) (saves : List CacheMetadata) (calls : ℕ),
      runSegments engine (xs ++ ys) m ctx acc saves calls =
        runFromResult engine ys (runSegments engine xs m ctx acc saves calls) := by
  intro xs
  induction xs with
  | nil =>
    intro ys m ctx acc saves calls
    simp only [List.nil_append, runSegments, runFromResult]
  | cons x xs ih =>
    intro ys m ctx acc saves calls
    simp only [List.cons_append, runSegments]
    cases hx : m.transcripts x.index with
    | some cached =>
      exact ih ys m (updateContext ctx cached) (acc ++ [cached]) saves calls
    | none =>
      cases he : transcribeChunkM engine x ctx with
      | ok t =>
        exact ih ys (setTranscript m x.index t) (updateContext ctx t) (acc ++ [t])
          (saves ++ [setTranscript m x.index t]) (calls + 1)
      | error e => simp [runFromResult]

theorem runSegments_preserves (engine : Engine E) :
    ∀ (chunks : List ChunkInfo) (m : CacheMetadata) (ctx : TranscriptionContext)
      (acc : List ChunkTranscript) (saves : List CacheMetadata) (calls : ℕ)
      (i : ℕ) (t : ChunkTranscript),
      m.transcripts i = some t →
      (runSegments engine chunks m ctx acc saves calls).metadata.transcripts i = some t := by
  intro chunks
  induction chunks with
  | nil => intro m ctx acc saves calls i t h; exact h
  | cons chunk rest ih =>
    intro m ctx acc saves calls i t h
    simp only [runSegments]
    cases hx : m.transcripts chunk.index with
    | some cached =>
      exact ih m (updateContext ctx cached) (acc ++ [cached]) saves calls i t h
    | none =>
      cases he : transcribeChunkM engine chunk ctx with
      | ok t2 =>
        apply ih
        rw [setTranscript_transcripts]
        have hne : i ≠ chunk.index := by
          intro hi
          rw [hi, hx] at h
          exact Option.noConfusion h
        rw [if_neg hne]
        exact h
      | error e => exact h

theorem runSegments_ok_isSome (engine : Engine E) :
    ∀ (chunks : List ChunkInfo) (m : CacheMetadata) (ctx : TranscriptionContext)
      (acc : List ChunkTranscript) (saves : List CacheMetadata) (calls : ℕ)
      (p : List ChunkTranscript × TranscriptionContext),
      (runSegments engine chunks m ctx acc saves calls).outcome = .ok p →
      ∀ c ∈ chunks,
        ((runSegments engine chunks m ctx acc saves calls).metadata.transcripts
          c.index).isSome = true := by
  intro chunks
  induction chunks with
  | nil => intro m ctx acc saves calls p _ c hc; exact absurd hc (List.not_mem_nil c)
  | cons chunk rest ih =>
    intro m ctx acc saves calls p hp c hc
    simp only [runSegments] at hp ⊢
    cases hx : m.transcripts chunk.index with
    | some cached =>
      rw [hx] at hp
      rcases List.mem_cons.mp hc with hceq | hcr
      · subst hceq
        show ((runSegments engine rest m (updateContext ctx cached) (acc ++ [cached])
          saves calls).metadata.transcripts c.index).isSome = true
        rw [runSegments_preserves engine rest m (updateContext ctx cached)
          (acc ++ [cached]) saves calls c.index cached hx]
        rfl
      · exact ih m (updateContext ctx cached) (acc ++ [cached]) saves calls p hp c hcr
    | none =>
      rw [hx] at hp
      cases he : transcribeChunkM engine chunk ctx with
      | ok t =>
        rw [he] at hp
        rcases List.mem_cons.mp hc with hceq | hcr
        · subst hceq
          show ((runSegments engine rest (setTranscript m c.index t)
            (updateContext ctx t) (acc ++ [t]) (saves ++ [setTranscript m c.index t])
            (calls + 1)).metadata.transcripts c.index).isSome = true
          rw [runSegments_preserves engine rest (setTranscript m c.index t)
            (updateContext ctx t) (acc ++ [t]) (saves ++ [setTranscript m c.index t])
            (calls + 1) c.index t (by rw [setTranscript_transcripts, if_pos rfl])]
          rfl
        · exact ih (setTranscript m chunk.index t) (updateContext ctx t) (acc ++ [t])
            (saves ++ [setTranscript m chunk.index t]) (calls + 1) p hp c hcr
      | error e =>
        rw [he] at hp
        exact Except.noConfusion hp

theorem runSegments_frame (engine : Engine E) :
    ∀ (chunks : List ChunkInfo) (m : CacheMetadata) (ctx : TranscriptionContext)
      (acc : List ChunkTranscript) (saves : List CacheMetadata) (calls : ℕ) (i : ℕ),
      (∀ c ∈ chunks, c.index ≠ i) →
      (runSegments engine chunks m ctx acc saves calls).metadata.transcripts i =
        m.transcripts i := by
  intro chunks
  induction chunks with
  | nil => intro m ctx acc saves calls i _; rfl
  | cons chunk rest ih =>
    intro m ctx acc saves calls i hne
    simp only [runSegments]
    cases hx : m.transcripts chunk.index with
    | some cached =>
      exact ih m (updateContext ctx cached) (acc ++ [cached]) saves calls i
        (fun c hcm => hne c (List.mem_cons_of_mem _ hcm))
    | none =>
      cases he : transcribeChunkM engine chunk ctx with
      | ok t =>
        rw [ih (setTranscript m chunk.index t) (updateContext ctx t) (acc ++ [t])
          (saves ++ [setTranscript m chunk.index t]) (calls + 1) i
          (fun c hcm => hne c (List.mem_cons_of_mem _ hcm))]
        rw [setTranscript_transcripts]
        rw [if_neg (fun hi => hne chunk (List.mem_cons_self _ _) hi.symm)]
      | error e => rfl

/-- C5: when the engine call for a segment fails after a prefix of
segments has completed, the loop halts at that segment (the rest of
the plan is never consulted), the error propagates, the engine was
called exactly once more than for the completed prefix, the record
and the save log are exactly those of the completed prefix (the
failed segment is never stored), every completed segment is present
in the record, and no index outside the completed prefix was
touched. -/
theorem claim_C5_failureHalts (engine : Engine E) (done : List ChunkInfo)
    (cfail : ChunkInfo) (rest : List ChunkInfo) (metadata : CacheMetadata)
    (m1 : CacheMetadata) (saves1 : List CacheMetadata) (calls1 : ℕ)
    (acc1 : List ChunkTranscript) (ctx1 : TranscriptionContext) (err : E)
    (hdone : runSegments engine done metadata initialContext [] [] 0 =
      ⟨m1, saves1, calls1, .ok (acc1, ctx1)⟩)
    (hmiss : m1.transcripts cfail.index = none)
    (hfail : transcribeChunkM engine cfail ctx1 = .error err) :
    transcribeSegments engine (done ++ cfail :: rest) metadata =
      ⟨m1, saves1, calls1 + 1, .error err⟩ ∧
    (∀ c ∈ done, (m1.transcripts c.index).isSome = true) ∧
    m1.transcripts cfail.index = none ∧
    (∀ i : ℕ, (∀ c ∈ done, c.index ≠ i) →
      m1.transcripts i = metadata.transcripts i) := by
  refine ⟨?_, ?_, hmiss, ?_⟩
  · simp only [transcribeSegments]
    rw [runSegments_append engine done (cfail :: rest) metadata initialContext [] [] 0,
      hdone]
    simp only [runFromResult, runSegments, hmiss, hfail]
  · intro c hc
    have := runSegments_ok_isSome engine done metadata initialContext [] [] 0
      (acc1, ctx1) (by rw [hdone]) c hc
    rw [hdone] at this
    exact this
  · intro i hi
    have := runSegments_frame engine done metadata initialContext [] [] 0 i hi
    rw [hdone] at this
    exact this

/-- The first planned chunk, used by the loop witnesses. -/
def chunkA : ChunkInfo :=
  { index := 0, filename := "chunk-001.mp3", path := "p0", startTime := 0,
    endTime := 600, duration := 600, hasOverlap := false }

/-- A segment engine that always fails; used to show the failure
path of the loop. -/
def segFailEngine : Engine Unit := fun _ _ => .error ()

/-- Witness for C5: an uncached chunk whose engine call fails; the
run returns immediately with the error, one engine call, no saves,
and the record untouched. -/
theorem claim_C5_failureHalts_witness :
    transcribeChunkM segFailEngine chunkA initialContext = .error () ∧
    transcribeSegments segFailEngine ([] ++ chunkA :: []) freshMetaW =
      ⟨freshMetaW, [], 0 + 1, .error ()⟩ :=
  ⟨rfl,
    (claim_C5_failureHalts segFailEngine [] chunkA [] freshMetaW freshMetaW [] 0 []
      initialContext () rfl rfl rfl).1⟩

/-! Persistence model for a resumed second invocation. The source
persists the record with JSON.stringify (saveCacheMetadata, line 118)
and a later invocation reloads it with JSON.parse (loadCacheMetadata,
line 110). Under ECMAScript semantics JSON.stringify serializes a Set
(which has no own enumerable properties and no toJSON method) as the
empty object, so the speakers field of every persisted transcript
comes back as a plain object, and for...of over a plain object throws
a TypeError because it has no iterator. The types below model a
transcript as the JS value it is at run time: the speakers field is
either a real Set or the plain object left by the JSON round trip. -/

/-- The run-time JS value of the speakers field of a transcript:
either a real Set of names, or the plain empty object that
JSON.parse returns for a serialized Set. -/
inductive JsSpeakers where
  | set (names : List String)
  | emptyObject
deriving DecidableEq, Repr

/-- The JS error thrown by the cached path of a resumed run. -/
inductive JsError where
  | typeError
deriving DecidableEq, Repr

/-- A chunk transcript as a run-time JS value whose speakers field
may no longer be a Set. -/
structure StoredChunkTranscript where
  chunkIndex : ℕ
  transcript : String
  speakers : JsSpeakers
  mainContent : String
  overlapContent : String
deriving DecidableEq, Repr

/-- The JSON round trip of a cached transcript: strings survive
losslessly, but JSON.stringify turns the speakers Set into the empty
object. -/
def jsonRoundTripTranscript (t : ChunkTranscript) : StoredChunkTranscript :=
  { chunkIndex := t.chunkIndex, transcript := t.transcript,
    speakers := .emptyObject, mainContent := t.mainContent,
    overlapContent := t.overlapContent }

/-- A live transcript, fresh from transcribeChunk, as a run-time JS
value: its speakers field is a real Set. -/
def liveTranscript (t : ChunkTranscript) : StoredChunkTranscript :=
  { chunkIndex := t.chunkIndex, transcript := t.transcript,
    speakers := .set t.speakers, mainContent := t.mainContent,
    overlapContent := t.overlapContent }

/-- ChunkedTranscriber.updateContext (lines 262 to 283) applied to a
run-time transcript value: the word split and the Map copy succeed,
and the for...of over the speakers field (line 272) throws a
TypeError when that field is the plain object of a reloaded record
rather than a Set. -/
def updateContextJs (context : TranscriptionContext)
    (t : StoredChunkTranscript) : Except JsError TranscriptionContext :=
  let words := splitWs t.transcript
  let contextWords := joinSep " " (sliceFromNeg words 500)
  match t.speakers with
  | .emptyObject => .error .typeError
  | .set names =>
    .ok { previousTranscript := contextWords
          speakers := names.foldl (fun m speaker =>
            if (mapGet m speaker).isSome then m else m ++ [(speaker, speaker)])
            context.speakers
          speakerDescriptions := context.speakerDescriptions }

/-- On a live transcript the run-time update agrees with the pure
updateContext: the TypeError is possible only for reloaded
transcripts. -/
theorem updateContextJs_live (context : TranscriptionContext) (t : ChunkTranscript) :
    updateContextJs context (liveTranscript t) = .ok (updateContext context t) :=
  rfl

/-- The segment loop of a resumed invocation whose record was
reloaded from JSON (lines 413 to 441 of the source): the cached
branch feeds the reloaded transcript to updateContext, and that
branch has no try/catch, so a TypeError thrown there aborts the whole
loop; the uncached branch works on live transcripts exactly as
before. Returns the segment engine-call count and either the
collected transcripts with the final context or the propagated
error. -/
def runSegmentsReloaded (engine : Engine E) :
    List ChunkInfo → (ℕ → Option StoredChunkTranscript) → TranscriptionContext →
    List StoredChunkTranscript → ℕ →
    ℕ × Except (JsError ⊕ E) (List StoredChunkTranscript × TranscriptionContext)
  | [], _, ctx, acc, calls => (calls, .ok (acc, ctx))
  | chunk :: rest, meta, ctx, acc, calls =>
    match meta chunk.index with
    | some cached =>
      match updateContextJs ctx cached with
      | .error e => (calls, .error (.inl e))
      | .ok ctx2 => runSegmentsReloaded engine rest meta ctx2 (acc ++ [cached]) calls
    | none =>
      match transcribeChunkM engine chunk ctx with
      | .ok t =>
        runSegmentsReloaded engine rest
          (fun j => if j = chunk.index then some (liveTranscript t) else meta j)
          (updateContext ctx t) (acc ++ [liveTranscript t]) (calls + 1)
      | .error e => (calls + 1, .error (.inr e))

/-- An engine that transcribes every segment to the text "hello". -/
def helloEngine : Engine Unit := fun _ _ => .ok (some "hello")

/-- The transcripts map a second invocation reads back: the record
left by the first run on the plan [chunkA], pushed through the JSON
round trip of saveCacheMetadata and loadCacheMetadata. -/
def reloadedTranscripts : ℕ → Option StoredChunkTranscript :=
  fun i =>
    ((transcribeSegments helloEngine [chunkA] freshMetaW).metadata.transcripts i).map
      jsonRoundTripTranscript

/-- C4: the claimed resume idempotence is the intent of the
specification, and the code breaks it in persistence. At the failing
input (plan [chunkA], engine text "hello", empty starting record) the
first run succeeds and merges to "hello", and the record it persists
is fully cached for the plan; but the second invocation, reading that
record back through the JSON round trip, issues zero engine calls and
then throws a TypeError inside updateContext at the very first cached
segment, because serialization turned the speakers Set into a plain
non-iterable object: it produces no merged output at all instead of
byte-identical merged output. -/
theorem claim_C4_resumeCrash :
    mergedOutput (transcribeSegments helloEngine [chunkA] freshMetaW) = .ok "hello" ∧
    (∀ c ∈ [chunkA], (reloadedTranscripts c.index).isSome = true) ∧
    runSegmentsReloaded helloEngine [chunkA] reloadedTranscripts initialContext [] 0 =
      (0, .error (.inl .typeError)) :=
  ⟨rfl, by decide, rfl⟩

end Transcriber
